import Mathlib

/-!
Verification development for the HSV utilities energy-usage core
(`custom_components/hsv_utilities_energy/delta_storage.py`, the in-memory
`EnergyDataCache`, and the durable `EnergyDeltaStorage` variant in
`delta_storage.py`).

Conventions of the shallow embedding:
* instants and timestamps are `Int` epoch milliseconds;
* civil dates are `Int` days since the epoch (`dt.date()` ordering agrees);
* usage/cost values are `Rat` (exact decimal arithmetic);
* Python dicts become insertion-ordered association lists;
* a Python `KeyError` raised by `point["x"]` / `point["y"]` on a malformed
  point makes the embedded operation return `none`;
* the wall clock (`datetime.now(tz=timezone.utc)`) is passed explicitly as a
  `nowMs : Int` parameter.
-/

namespace HsvEnergy

/-! ### Association lists (Python dicts, insertion ordered) -/

/-- Dict lookup: `m[k]` if present. -/
def alookup {α : Type} : List (String × α) → String → Option α
  | [], _ => none
  | (k', v) :: rest, k => if k' = k then some v else alookup rest k

/-- Dict assignment `m[k] = v`: replaces in place, or appends a new key at the
end (Python dicts preserve insertion order). -/
def aupdate {α : Type} : List (String × α) → String → α → List (String × α)
  | [], k, v => [(k, v)]
  | (k', v') :: rest, k, v =>
    if k' = k then (k, v) :: rest else (k', v') :: aupdate rest k v

/-- `if k not in m: m[k] = empty` -/
def ensure1 {α : Type} (m : List (String × α)) (k : String) (empty : α) :
    List (String × α) :=
  if (alookup m k).isNone then m ++ [(k, empty)] else m

/-! ### Civil calendar arithmetic

Days/civil conversion on the proleptic Gregorian calendar (the arithmetic
underlying Python `datetime`), needed to locate the DST transition Sundays
of the `America/Chicago` zone. -/

/-- Days since 1970-01-01 of the civil date `(y, m, d)`. -/
def daysFromCivil (y m d : Int) : Int :=
  let y' := if m ≤ 2 then y - 1 else y
  let era := Int.fdiv y' 400
  let yoe := y' - era * 400
  let mp := Int.emod (m + 9) 12
  let doy := Int.fdiv (153 * mp + 2) 5 + d - 1
  let doe := yoe * 365 + Int.fdiv yoe 4 - Int.fdiv yoe 100 + doy
  era * 146097 + doe - 719468

/-- Civil date `(y, m, d)` of a days-since-epoch count. -/
def civilFromDays (z : Int) : Int × Int × Int :=
  let z' := z + 719468
  let era := Int.fdiv z' 146097
  let doe := z' - era * 146097
  let yoe :=
    Int.fdiv (doe - Int.fdiv doe 1460 + Int.fdiv doe 36524 - Int.fdiv doe 146096) 365
  let y := yoe + era * 400
  let doy := doe - (365 * yoe + Int.fdiv yoe 4 - Int.fdiv yoe 100)
  let mp := Int.fdiv (5 * doy + 2) 153
  let d := doy - Int.fdiv (153 * mp + 2) 5 + 1
  let m := mp + (if mp < 10 then 3 else -9)
  (if m ≤ 2 then y + 1 else y, m, d)

/-- Day of week of a days-since-epoch count, `0 = Sunday` (1970-01-01 was a
Thursday). -/
def weekdayFromDays (z : Int) : Int := Int.emod (z + 4) 7

/-- Day of month of the `n`-th Sunday (1-based) of month `m` in year `y`. -/
def nthSundayDom (y m n : Int) : Int :=
  let w := weekdayFromDays (daysFromCivil y m 1)
  1 + Int.emod (7 - w) 7 + 7 * (n - 1)

/-! ### The `America/Chicago` zone (`HSV_TIMEZONE = ZoneInfo("America/Chicago")`)

Modelled from the IANA zone database rules used by `zoneinfo`: since 2007 the
US observes DST from the second Sunday of March 02:00 local to the first
Sunday of November 02:00 local; Chicago is UTC−6 standard (CST), UTC−5 DST
(CDT).  `datetime.replace(tzinfo=...)` leaves `fold=0`, so an ambiguous
fall-back wall time resolves to the earlier (CDT) offset and a spring-forward
gap time resolves to the pre-transition (CST) offset; consequently the CDT
offset applies to local wall-clock values in
`[spring-Sunday 03:00, fall-Sunday 02:00)`.  The rule is applied uniformly to
all years (historical pre-2007 transition dates are not modelled; no claim
depends on them). -/

/-- Is the naive local wall-clock instant (epoch ms read as Chicago wall time,
`fold=0`) inside the CDT window of its year? -/
def chicagoIsDST (localMs : Int) : Bool :=
  let days := Int.fdiv localMs 86400000
  let msOfDay := Int.emod localMs 86400000
  let c := civilFromDays days
  let y := c.1
  let m := c.2.1
  let d := c.2.2
  let sd := nthSundayDom y 3 2
  let fd := nthSundayDom y 11 1
  let afterSpring :=
    decide (3 < m) || (decide (m = 3) &&
      (decide (sd < d) || (decide (d = sd) && decide (10800000 ≤ msOfDay))))
  let beforeFall :=
    decide (m < 11) || (decide (m = 11) &&
      (decide (d < fd) || (decide (d = fd) && decide (msOfDay < 7200000))))
  afterSpring && beforeFall

/-- UTC offset, in milliseconds, that `ZoneInfo("America/Chicago")` assigns to
a naive wall-clock instant with `fold=0` (CDT = −5 h, CST = −6 h). -/
def chicagoUtcOffsetMs (localMs : Int) : Int :=
  if chicagoIsDST localMs then -18000000 else -21600000

/-! ### Timestamp correction (`save_usage_data` lines 80–87) -/

/-- Source translation of
`naive_dt = datetime.utcfromtimestamp(timestamp_ms / 1000)`;
`local_dt = naive_dt.replace(tzinfo=HSV_TIMEZONE)`;
`dt = local_dt.astimezone(timezone.utc)`.
Reading the raw ms as a UTC instant yields the naive wall clock; attaching the
Chicago zone and converting back to UTC subtracts that wall clock's Chicago
offset. -/
def correctTimestamp (ms : Int) : Int :=
  let naiveMs := ms
  naiveMs - chicagoUtcOffsetMs naiveMs

/-- Step (a) of the spec's correction algorithm: interpret the raw epoch
milliseconds as if they were a UTC instant, producing a naive wall-clock
date-time (represented by its epoch-style millisecond count). -/
def specStepNaiveWallClock (rawEpochMs : Int) : Int := rawEpochMs

/-- Steps (b) and (c) of the spec's correction algorithm: reinterpret the
naive wall-clock date-time as belonging to the fixed `America/Chicago` zone,
resolving DST ambiguity with the zone database's default (`fold=0`)
disambiguation, and convert the resulting zoned instant to true UTC. -/
def specStepZoneToUTC (wallClockMs : Int) : Int :=
  wallClockMs - chicagoUtcOffsetMs wallClockMs

/-- The spec's correction, as the composition of its three named steps. -/
def specCorrect (rawEpochMs : Int) : Int :=
  specStepZoneToUTC (specStepNaiveWallClock rawEpochMs)

/-! ### Banker's rounding (Python `round(x, n)`) -/

/-- Round a rational to the nearest integer, ties to even (Python `round`). -/
def roundHalfEven (q : Rat) : Int :=
  let f := q.floor
  let frac := q - f
  if frac < 1/2 then f
  else if 1/2 < frac then f + 1
  else if Int.emod f 2 = 0 then f else f + 1

/-- Python `round(q, n)` on exact rationals. -/
def roundTo (n : Nat) (q : Rat) : Rat :=
  let p : Int := (10 : Int) ^ n
  (roundHalfEven (q * (p : Rat)) : Rat) / (p : Rat)

/-! ### Records and the in-memory cache state (`EnergyDataCache`) -/

/-- A raw vendor point `{'x': timestamp_ms, 'y': usage_value}`; a `none`
field models a missing dict key. -/
structure RawPoint where
  x : Option Int
  y : Option Rat
deriving Repr, DecidableEq

/-- One cached record, as built in `save_usage_data` lines 89–104.
`date` is the civil date of `datetime_utc` in days since the epoch. -/
structure Record where
  timestamp_ms : Int
  datetime_utc : Int
  date : Int
  hour : Option Int
  usage_value : Rat
  unit_of_measure : String
  utility_type : String
  data_type : String
  meter_number : String
  service_location_number : String
  account_number : String
  time_frame : String
deriving Repr, DecidableEq

abbrev Partition := List Record
abbrev MeterMap := List (String × Partition)
abbrev TypeMap := List (String × MeterMap)
abbrev DataMap := List (String × TypeMap)

instance : DecidableEq Partition := inferInstance
instance : DecidableEq MeterMap := inferInstance
instance : DecidableEq TypeMap := inferInstance
instance : DecidableEq DataMap := inferInstance

/-- The `EnergyDataCache` state: `_data` (utility type → data type → meter →
records) and `_last_fetch`. -/
structure CacheState where
  data : DataMap
  lastFetch : List (String × Int)
deriving Repr, DecidableEq

def CacheState.empty : CacheState := ⟨[], []⟩

/-- `timestamp_ms`-keyed ordering used by every `sort(key=lambda x: x["timestamp_ms"])`. -/
def tsLe (a b : Record) : Prop := a.timestamp_ms ≤ b.timestamp_ms

instance : DecidableRel tsLe := fun a b =>
  inferInstanceAs (Decidable (a.timestamp_ms ≤ b.timestamp_ms))

instance : IsTotal Record tsLe := ⟨fun a b => Int.le_total a.timestamp_ms b.timestamp_ms⟩

instance : IsTrans Record tsLe := ⟨fun _ _ _ h h' => Int.le_trans h h'⟩

/-- Conversion of one raw point to a record (`save_usage_data` lines 76–104);
`none` when the point is missing `'x'` or `'y'` (Python raises `KeyError`). -/
def toRecord (meter sln acct ut uom tf dty : String) (p : RawPoint) :
    Option Record := do
  let ts ← p.x
  let v ← p.y
  let dtUtc := correctTimestamp ts
  pure
    { timestamp_ms := ts
      datetime_utc := dtUtc
      date := Int.fdiv dtUtc 86400000
      hour := if tf = "HOURLY" then some (Int.emod (Int.fdiv dtUtc 3600000) 24) else none
      usage_value := v
      unit_of_measure := uom
      utility_type := ut
      data_type := dty
      meter_number := meter
      service_location_number := sln
      account_number := acct
      time_frame := tf }

/-- Lines 66–72: create the nested dict levels that are missing. -/
def ensureStructure (d : DataMap) (ut dty meter : String) : DataMap :=
  let d1 := ensure1 d ut []
  let t := (alookup d1 ut).getD []
  let t1 := ensure1 t dty []
  let mm := (alookup t1 dty).getD []
  let mm1 := ensure1 mm meter []
  aupdate d1 ut (aupdate t1 dty mm1)

/-- `self._data[ut][dty][meter]` after the structure is ensured. -/
def getPartition (d : DataMap) (ut dty meter : String) : Partition :=
  let t := (alookup d ut).getD []
  let mm := (alookup t dty).getD []
  (alookup mm meter).getD []

/-- `self._data[ut][dty][meter] = part`. -/
def setPartition (d : DataMap) (ut dty meter : String) (part : Partition) :
    DataMap :=
  let t := (alookup d ut).getD []
  let mm := (alookup t dty).getD []
  aupdate d ut (aupdate t dty (aupdate mm meter part))

/-- The merge–sort–evict body of `save_usage_data` (lines 106–127) on one
partition: returns the kept records and `len(new_records)`. -/
def mergePartition (existing : Partition) (records : List Record)
    (nowMs : Int) : Partition × Nat :=
  let existingTs := existing.map (·.timestamp_ms)
  let newRecords := records.filter (fun r => ¬ r.timestamp_ms ∈ existingTs)
  let merged := existing ++ newRecords
  let sorted := List.insertionSort tsLe merged
  let cutoff := nowMs - 604800000
  let kept := sorted.filter (fun r => cutoff ≤ r.timestamp_ms)
  (kept, newRecords.length)

/-- `EnergyDataCache.save_usage_data`.  Returns `none` when a malformed point
raises `KeyError`; otherwise `some (new state, number of records saved)`. -/
def save_usage_data (st : CacheState) (data : List RawPoint)
    (meter sln acct ut uom : String) (tf : String := "HOURLY")
    (dty : String := "USAGE") (nowMs : Int := 0) :
    Option (CacheState × Nat) :=
  if data.isEmpty then some (st, 0)
  else
    match data.mapM (toRecord meter sln acct ut uom tf dty) with
    | none => none
    | some records =>
      let d0 := ensureStructure st.data ut dty meter
      let existing := getPartition d0 ut dty meter
      let result := mergePartition existing records nowMs
      some
        ({ data := setPartition d0 ut dty meter result.1
           lastFetch := aupdate st.lastFetch (ut ++ "_" ++ dty) nowMs },
         result.2)

/-- `EnergyDataCache.read_usage_data`.  Date bounds arrive already parsed to
civil epoch-days (`datetime.fromisoformat(...).date()`). -/
def read_usage_data (st : CacheState) (ut? dty? : Option String)
    (startDate? endDate? : Option Int) (meter? : Option String) :
    List Record :=
  let collectMeter : MeterMap → String → List Record := fun mmap mv =>
    match alookup mmap mv with
    | none => []
    | some recs =>
      recs.filter (fun r =>
        (startDate?.all fun s => decide (s ≤ r.date)) &&
        (endDate?.all fun e => decide (r.date ≤ e)))
  let collectType : TypeMap → String → List Record := fun tmap dv =>
    match alookup tmap dv with
    | none => []
    | some mmap =>
      let ms := match meter? with | some mv => [mv] | none => mmap.map Prod.fst
      (ms.map (collectMeter mmap)).flatten
  let collectUt : String → List Record := fun u =>
    match alookup st.data u with
    | none => []
    | some tmap =>
      let dts := match dty? with | some dv => [dv] | none => tmap.map Prod.fst
      (dts.map (collectType tmap)).flatten
  let uts := match ut? with | some u => [u] | none => st.data.map Prod.fst
  List.insertionSort tsLe ((uts.map collectUt).flatten)

/-- The result dict of `get_aggregated_data`.  `last_update` keeps the UTC
instant itself (the code serialises it with `isoformat()`). -/
structure RollupResult where
  last_24h : Rat
  today : Rat
  yesterday : Rat
  unit : String
  last_update : Option Int
  data_lag_hours : Option Rat
deriving Repr, DecidableEq

/-- `EnergyDataCache.get_aggregated_data`. -/
def get_aggregated_data (st : CacheState) (ut dty : String) (nowMs : Int) :
    RollupResult :=
  let today := Int.fdiv nowMs 86400000
  let yesterday := today - 1
  let records := read_usage_data st (some ut) (some dty) none none none
  if records.isEmpty then
    { last_24h := 0, today := 0, yesterday := 0
      unit := if ut = "ELECTRIC" then "KWH" else "CCF"
      last_update := none, data_lag_hours := none }
  else
    let todayTotal := ((records.filter (fun r => r.date = today)).map (·.usage_value)).sum
    let yesterdayTotal :=
      ((records.filter (fun r => r.date = yesterday)).map (·.usage_value)).sum
    let latestDt := records.getLast?.map (·.datetime_utc)
    let last24hTotal := match latestDt with
      | some l =>
        ((records.filter (fun r => l - 86400000 < r.datetime_utc)).map
          (·.usage_value)).sum
      | none => 0
    let dataLag := latestDt.map (fun l =>
      roundTo 1 (((nowMs - l : Int) : Rat) / 3600000))
    { last_24h := roundTo 2 last24hTotal
      today := roundTo 2 todayTotal
      yesterday := roundTo 2 yesterdayTotal
      unit := (records.head?.map (·.unit_of_measure)).getD "UNKNOWN"
      last_update := latestDt
      data_lag_hours := dataLag }

/-- `dt.replace(minute=0, second=0, microsecond=0)` on a UTC instant. -/
def hourFloor (ms : Int) : Int := Int.fdiv ms 3600000 * 3600000

/-- `hourly[hour_start] += value`, creating the key at the end on first sight
(Python dict insertion order). -/
def bumpHour : List (Int × Rat) → Int → Rat → List (Int × Rat)
  | [], h, v => [(h, v)]
  | (k, w) :: rest, h, v =>
    if k = h then (k, w + v) :: rest else (k, w) :: bumpHour rest h v

/-- Lookup of one hour bucket in the accumulating dict. -/
def hlookup : List (Int × Rat) → Int → Option Rat
  | [], _ => none
  | (k, w) :: rest, h => if k = h then some w else hlookup rest h

/-- The summed value of all records falling in hour bucket `h`. -/
def hourSum (h : Int) (l : List Record) : Rat :=
  ((l.filter (fun r => hourFloor r.datetime_utc = h)).map
    (fun r => r.usage_value)).sum

/-- key ordering for `sorted(hourly.items())` (keys are distinct, so the
value component never decides). -/
def hourLe (a b : Int × Rat) : Prop := a.1 ≤ b.1

instance : DecidableRel hourLe := fun a b =>
  inferInstanceAs (Decidable (a.1 ≤ b.1))

instance : IsTotal (Int × Rat) hourLe := ⟨fun a b => Int.le_total a.1 b.1⟩

instance : IsTrans (Int × Rat) hourLe := ⟨fun _ _ _ h h' => Int.le_trans h h'⟩

/-- `EnergyDataCache.get_hourly_data_for_statistics`: each element is
`(hour_start, value)`. -/
def get_hourly_data_for_statistics (st : CacheState) (ut dty : String) :
    List (Int × Rat) :=
  let records := read_usage_data st (some ut) (some dty) none none none
  if records.isEmpty then []
  else
    let hourly := records.foldl
      (fun acc r => bumpHour acc (hourFloor r.datetime_utc) r.usage_value) []
    List.insertionSort hourLe hourly

end HsvEnergy

namespace HsvEnergy

/-! ### The durable backend variant (`delta_storage.py`, `EnergyDeltaStorage`)

The Delta Lake table is modelled as `Option (List DRow)`: `none` when the
table does not exist yet (the `except` branch of `save_usage_data` then
creates it with the batch as initial contents). -/

/-- One row of the unified usage table (`save_usage_data` lines 59–84).  This
variant applies no timezone correction: `pd.to_datetime(ms, unit='ms',
utc=True)` keeps the raw instant. -/
structure DRow where
  timestamp_ms : Int
  datetime_utc : Int
  date : Int
  year : Int
  month : Int
  day : Int
  hour : Option Int
  usage_value : Rat
  unit_of_measure : String
  utility_type : String
  data_type : String
  meter_number : String
  service_location_number : String
  account_number : String
  time_frame : String
  ingested_at : Int
deriving Repr, DecidableEq

/-- Row construction for one raw point; `none` on a missing `'x'`/`'y'` key. -/
def toDRow (meter sln acct ut uom tf dty : String) (nowMs : Int)
    (p : RawPoint) : Option DRow := do
  let ts ← p.x
  let v ← p.y
  let days := Int.fdiv ts 86400000
  let c := civilFromDays days
  pure
    { timestamp_ms := ts
      datetime_utc := ts
      date := days
      year := c.1
      month := c.2.1
      day := c.2.2
      hour := if tf = "HOURLY" then some (Int.emod (Int.fdiv ts 3600000) 24) else none
      usage_value := v
      unit_of_measure := uom
      utility_type := ut
      data_type := dty
      meter_number := meter
      service_location_number := sln
      account_number := acct
      time_frame := tf
      ingested_at := nowMs }

/-- The merge predicate
`t.timestamp_ms = s.timestamp_ms AND t.meter_number = s.meter_number AND
t.utility_type = s.utility_type AND t.data_type = s.data_type`. -/
def drowMatches (s t : DRow) : Bool :=
  decide (t.timestamp_ms = s.timestamp_ms) &&
  decide (t.meter_number = s.meter_number) &&
  decide (t.utility_type = s.utility_type) &&
  decide (t.data_type = s.data_type)

/-- `when_matched_update_all` / `when_not_matched_insert_all`: matched target
rows are overwritten by their source row; unmatched source rows are inserted. -/
def deltaMerge (target source : List DRow) : List DRow :=
  (target.map fun t => ((source.find? (fun s => drowMatches s t)).getD t)) ++
    source.filter (fun s => ¬ target.any (fun t => drowMatches s t))

namespace EnergyDeltaStorage

/-- `EnergyDeltaStorage.save_usage_data`.  Returns `none` when a malformed
point raises `KeyError`; otherwise the new table and the returned count
(`len(records)`). -/
def save_usage_data (table : Option (List DRow)) (data : List RawPoint)
    (meter sln acct ut uom : String) (tf : String := "HOURLY")
    (dty : String := "USAGE") (nowMs : Int := 0) :
    Option (Option (List DRow) × Nat) :=
  if data.isEmpty then some (table, 0)
  else
    match data.mapM (toDRow meter sln acct ut uom tf dty nowMs) with
    | none => none
    | some records =>
      match table with
      | some tbl => some (some (deltaMerge tbl records), records.length)
      | none => some (some records, records.length)

end EnergyDeltaStorage

end HsvEnergy


namespace HsvEnergy

/-! ## Concrete fixtures used by counterexamples and witnesses -/

/-- The record `save_usage_data` builds for the point
`{'x': 1700000000000, 'y': 1.0}` on meter `M1` (`ELECTRIC`/`USAGE`). -/
def c1Record : Record :=
  ⟨1700000000000, 1700021600000, 19676, some 4, 1, "KWH", "ELECTRIC", "USAGE",
   "M1", "SL", "AC", "HOURLY"⟩

/-- A cache already holding `c1Record`. -/
def c1State : CacheState :=
  ⟨[("ELECTRIC", [("USAGE", [("M1", [c1Record])])])], []⟩

/-- `c1State` after one more `save_usage_data` call at `nowMs = 1700000000000`. -/
def c1State' : CacheState :=
  ⟨c1State.data, [("ELECTRIC_USAGE", 1700000000000)]⟩

/-- A usage-table row whose identity is
`(1700000000000, M1, ELECTRIC, USAGE)`. -/
def c5Row : DRow :=
  ⟨1700000000000, 1700000000000, 19675, 2023, 11, 14, some 22, 1, "KWH",
   "ELECTRIC", "USAGE", "M1", "SL", "AC", "HOURLY", 0⟩

/-- The row `toDRow` builds for the refreshed point
`{'x': 1700000000000, 'y': 2}` (same identity as `c5Row`, new value). -/
def c5Row2 : DRow :=
  ⟨1700000000000, 1700000000000, 19675, 2023, 11, 14, some 22, 2, "KWH",
   "ELECTRIC", "USAGE", "M1", "SL", "AC", "HOURLY", 0⟩

/-- The record `save_usage_data` builds for `{'x': 1700000000000, 'y': 7}`. -/
def c4Record : Record :=
  ⟨1700000000000, 1700021600000, 19676, some 4, 7, "KWH", "ELECTRIC", "USAGE",
   "M1", "SL", "AC", "HOURLY"⟩

/-- The cache resulting from appending a 10-day-old point and a current point
at `nowMs = 1700000000000`: only the current one is retained. -/
def c4State' : CacheState :=
  ⟨[("ELECTRIC", [("USAGE", [("M1", [c4Record])])])],
   [("ELECTRIC_USAGE", 1700000000000)]⟩

/-! ## Dict-model lemmas -/

theorem alookup_aupdate_self {α : Type} (m : List (String × α)) (k : String)
    (v : α) : alookup (aupdate m k v) k = some v := by
  induction m with
  | nil => simp [aupdate, alookup]
  | cons kv rest ih =>
    obtain ⟨k', v'⟩ := kv
    by_cases h : k' = k
    · simp [aupdate, h, alookup]
    · simp [aupdate, h, alookup, ih]

theorem aupdate_eq_self {α : Type} {m : List (String × α)} {k : String}
    {v : α} (h : alookup m k = some v) : aupdate m k v = m := by
  induction m with
  | nil => simp [alookup] at h
  | cons kv rest ih =>
    obtain ⟨k', v'⟩ := kv
    by_cases hk : k' = k
    · simp [alookup, hk] at h
      simp [aupdate, hk, h]
    · simp [alookup, hk] at h
      simp [aupdate, hk, ih h]

theorem aupdate_aupdate_self {α : Type} (m : List (String × α)) (k : String)
    (v w : α) : aupdate (aupdate m k v) k w = aupdate m k w := by
  induction m with
  | nil => simp [aupdate]
  | cons kv rest ih =>
    obtain ⟨k', v'⟩ := kv
    by_cases hk : k' = k
    · simp [aupdate, hk]
    · simp [aupdate, hk, ih]

theorem alookup_append_of_none {α : Type} {m : List (String × α)}
    {k : String} (h : alookup m k = none) (v : α) :
    alookup (m ++ [(k, v)]) k = some v := by
  induction m with
  | nil => simp [alookup]
  | cons kv rest ih =>
    obtain ⟨k', v'⟩ := kv
    by_cases hk : k' = k
    · simp [alookup, hk] at h
    · simp [alookup, hk] at h ⊢
      exact ih h

theorem ensure1_lookup {α : Type} (m : List (String × α)) (k : String)
    (e : α) : alookup (ensure1 m k e) k = some ((alookup m k).getD e) := by
  cases h : alookup m k with
  | none => simp [ensure1, h, alookup_append_of_none h]
  | some v => simp [ensure1, h]

theorem ensure1_of_isSome {α : Type} {m : List (String × α)} {k : String}
    (e : α) (h : (alookup m k).isSome) : ensure1 m k e = m := by
  cases h' : alookup m k with
  | none => rw [h'] at h; simp at h
  | some v => simp [ensure1, h']

end HsvEnergy

namespace HsvEnergy

/-! ## Nested-structure lemmas -/

theorem getPartition_ensureStructure (d : DataMap) (ut dty meter : String) :
    getPartition (ensureStructure d ut dty meter) ut dty meter =
      getPartition d ut dty meter := by
  simp only [getPartition, ensureStructure]
  rw [alookup_aupdate_self]
  simp only [Option.getD_some]
  rw [alookup_aupdate_self]
  simp only [Option.getD_some]
  rw [ensure1_lookup]
  simp only [Option.getD_some]
  rw [ensure1_lookup]
  simp only [Option.getD_some]
  rw [ensure1_lookup]
  simp only [Option.getD_some]

theorem getPartition_setPartition_self (d : DataMap) (ut dty meter : String)
    (p : Partition) :
    getPartition (setPartition d ut dty meter p) ut dty meter = p := by
  simp only [getPartition, setPartition]
  rw [alookup_aupdate_self]
  simp only [Option.getD_some]
  rw [alookup_aupdate_self]
  simp only [Option.getD_some]
  rw [alookup_aupdate_self]
  simp only [Option.getD_some]

theorem ensureStructure_of_present {d : DataMap} {ut dty meter : String}
    {t : TypeMap} {mm : MeterMap}
    (h1 : alookup d ut = some t) (h2 : alookup t dty = some mm)
    (h3 : (alookup mm meter).isSome) :
    ensureStructure d ut dty meter = d := by
  simp only [ensureStructure]
  rw [ensure1_of_isSome _ (by rw [h1]; rfl)]
  rw [h1]
  simp only [Option.getD_some]
  rw [ensure1_of_isSome _ (by rw [h2]; rfl)]
  rw [h2]
  simp only [Option.getD_some]
  rw [ensure1_of_isSome _ h3]
  rw [aupdate_eq_self h2, aupdate_eq_self h1]

theorem setPartition_eq_self {d : DataMap} {ut dty meter : String}
    {t : TypeMap} {mm : MeterMap} {p : Partition}
    (h1 : alookup d ut = some t) (h2 : alookup t dty = some mm)
    (h3 : alookup mm meter = some p) :
    setPartition d ut dty meter p = d := by
  simp only [setPartition]
  rw [h1]
  simp only [Option.getD_some]
  rw [h2]
  simp only [Option.getD_some]
  rw [aupdate_eq_self h3, aupdate_eq_self h2, aupdate_eq_self h1]

end HsvEnergy

namespace HsvEnergy

/-! ## Sorting and filtering lemmas for the merge body -/

theorem orderedInsert_of_forall_le {a : Record} {l : List Record}
    (h : ∀ x ∈ l, tsLe a x) : List.orderedInsert tsLe a l = a :: l := by
  cases l with
  | nil => rfl
  | cons b t =>
    simp only [List.orderedInsert]
    rw [if_pos (h b (by simp))]

theorem filter_orderedInsert (p : Record → Bool) (a : Record) :
    ∀ l : List Record, List.Sorted tsLe l →
      (List.orderedInsert tsLe a l).filter p =
        if p a then List.orderedInsert tsLe a (l.filter p) else l.filter p
  | [], _ => by
    cases hpa : p a <;> simp [List.orderedInsert, hpa]
  | b :: t, hs => by
    by_cases hab : tsLe a b
    · simp only [List.orderedInsert, if_pos hab]
      cases hpa : p a <;> cases hpb : p b
      · simp [List.filter_cons, hpa, hpb]
      · simp [List.filter_cons, hpa, hpb]
      · -- `p a`, not `p b`: `a` still precedes every kept element
        have hle : ∀ x ∈ t.filter p, tsLe a x := by
          intro x hx
          exact le_trans hab
            (List.rel_of_sorted_cons hs x (List.mem_filter.mp hx).1)
        simp only [List.filter_cons, hpa, hpb, if_pos, if_neg,
          Bool.false_eq_true, ite_true, ite_false]
        rw [orderedInsert_of_forall_le hle]
      · simp only [List.filter_cons, hpa, hpb, ite_true]
        simp [List.orderedInsert, hab]
    · simp only [List.orderedInsert, if_neg hab]
      have ih := filter_orderedInsert p a t hs.of_cons
      cases hpa : p a <;> cases hpb : p b <;>
        simp_all [List.filter_cons, List.orderedInsert, hab]

theorem filter_insertionSort (p : Record → Bool) (l : List Record) :
    (List.insertionSort tsLe l).filter p =
      List.insertionSort tsLe (l.filter p) := by
  induction l with
  | nil => rfl
  | cons a t ih =>
    simp only [List.insertionSort]
    rw [filter_orderedInsert p a _ (List.sorted_insertionSort tsLe t), ih]
    cases hpa : p a <;> simp [List.filter_cons, hpa, List.insertionSort]

theorem sorted_le_getLast {l : List Record} (hs : List.Sorted tsLe l)
    (h : l ≠ []) : ∀ x ∈ l, tsLe x (l.getLast h) := by
  induction l with
  | nil => simp at h
  | cons a t ih =>
    cases t with
    | nil =>
      intro x hx
      simp only [List.mem_singleton] at hx
      subst hx
      exact le_refl _
    | cons b t' =>
      have hne' : b :: t' ≠ [] := by simp
      intro x hx
      rw [List.getLast_cons hne']
      rcases List.mem_cons.mp hx with hxa | hxt
      · subst hxa
        exact List.rel_of_sorted_cons hs _ (List.getLast_mem hne')
      · exact ih hs.of_cons hne' x hxt

end HsvEnergy

namespace HsvEnergy

/-! ## Properties of the merge–sort–evict body -/

theorem mergePartition_fst_sorted (E R : List Record) (now : Int) :
    List.Sorted tsLe (mergePartition E R now).1 :=
  (List.sorted_insertionSort tsLe _).filter _

theorem mergePartition_fst_cutoff (E R : List Record) (now : Int) :
    ∀ r ∈ (mergePartition E R now).1, now - 604800000 ≤ r.timestamp_ms := by
  intro r hr
  have := (List.mem_filter.mp hr).2
  simpa using this

/-- Every batch record that survives the cutoff has its timestamp present in
the merged partition (either through an old record with the same timestamp,
or through itself). -/
theorem ts_mem_mergePartition_fst {E R : List Record} {now : Int} {r : Record}
    (hr : r ∈ R) (hcut : now - 604800000 ≤ r.timestamp_ms) :
    r.timestamp_ms ∈ (mergePartition E R now).1.map Record.timestamp_ms := by
  by_cases hmem : r.timestamp_ms ∈ E.map Record.timestamp_ms
  · obtain ⟨e, he, hts⟩ := List.mem_map.mp hmem
    refine List.mem_map.mpr ⟨e, ?_, hts⟩
    refine List.mem_filter.mpr ⟨?_, ?_⟩
    · exact (List.mem_insertionSort tsLe).mpr (List.mem_append_left _ he)
    · simp [hts, hcut]
  · refine List.mem_map.mpr ⟨r, ?_, rfl⟩
    refine List.mem_filter.mpr ⟨?_, by simp [hcut]⟩
    refine (List.mem_insertionSort tsLe).mpr (List.mem_append_right _ ?_)
    exact List.mem_filter.mpr ⟨hr, by simpa using hmem⟩

/-- Re-merging the same batch into an already-merged partition changes
nothing: every batch record either still has its timestamp present (so it is
dropped by the dedup filter) or lies beyond the retention cutoff (so it is
evicted again). -/
theorem mergePartition_idem (E R : List Record) (now : Int) :
    (mergePartition (mergePartition E R now).1 R now).1 =
      (mergePartition E R now).1 := by
  have hsort : List.Sorted tsLe (mergePartition E R now).1 :=
    mergePartition_fst_sorted E R now
  have hcut := mergePartition_fst_cutoff E R now
  show (List.insertionSort tsLe ((mergePartition E R now).1 ++
      R.filter (fun r =>
        ¬ r.timestamp_ms ∈ (mergePartition E R now).1.map Record.timestamp_ms))).filter
      (fun r => now - 604800000 ≤ r.timestamp_ms) = (mergePartition E R now).1
  rw [filter_insertionSort, List.filter_append]
  have h1 : (mergePartition E R now).1.filter
      (fun r => decide (now - 604800000 ≤ r.timestamp_ms)) =
      (mergePartition E R now).1 :=
    List.filter_eq_self.mpr (fun r hr => by simpa using hcut r hr)
  have h2 : (R.filter (fun r =>
      ¬ r.timestamp_ms ∈ (mergePartition E R now).1.map Record.timestamp_ms)).filter
      (fun r => decide (now - 604800000 ≤ r.timestamp_ms)) = [] := by
    rw [List.filter_eq_nil_iff]
    intro r hr
    obtain ⟨hrR, hnot⟩ := List.mem_filter.mp hr
    simp only [decide_eq_true_eq] at hnot ⊢
    intro hc
    exact hnot (ts_mem_mergePartition_fst hrR hc)
  rw [h1, h2, List.append_nil, hsort.insertionSort_eq]

end HsvEnergy

namespace HsvEnergy

/-! ## Unfolding equations for `save_usage_data` -/

theorem save_usage_data_nil (st : CacheState)
    (meter sln acct ut uom tf dty : String) (nowMs : Int) :
    save_usage_data st [] meter sln acct ut uom tf dty nowMs = some (st, 0) :=
  rfl

theorem save_usage_data_eq (st : CacheState) {data : List RawPoint}
    (meter sln acct ut uom tf dty : String) (nowMs : Int)
    {records : List Record}
    (hne : data.isEmpty = false)
    (hmap : data.mapM (toRecord meter sln acct ut uom tf dty) = some records) :
    save_usage_data st data meter sln acct ut uom tf dty nowMs =
      some
        ({ data := setPartition (ensureStructure st.data ut dty meter) ut dty
             meter
             (mergePartition
               (getPartition (ensureStructure st.data ut dty meter) ut dty
                 meter)
               records nowMs).1
           lastFetch := aupdate st.lastFetch (ut ++ "_" ++ dty) nowMs },
         (mergePartition
           (getPartition (ensureStructure st.data ut dty meter) ut dty meter)
           records nowMs).2) := by
  simp only [save_usage_data, hne, hmap, Bool.false_eq_true, if_false]

theorem save_usage_data_none (st : CacheState) {data : List RawPoint}
    (meter sln acct ut uom tf dty : String) (nowMs : Int)
    (hne : data.isEmpty = false)
    (hmap : data.mapM (toRecord meter sln acct ut uom tf dty) = none) :
    save_usage_data st data meter sln acct ut uom tf dty nowMs = none := by
  simp only [save_usage_data, hne, hmap, Bool.false_eq_true, if_false]

theorem alookup_setPartition_self (d : DataMap) (ut dty meter : String)
    (p : Partition) :
    alookup (setPartition d ut dty meter p) ut =
      some (aupdate ((alookup d ut).getD []) dty
        (aupdate ((alookup ((alookup d ut).getD []) dty).getD []) meter p)) := by
  simp only [setPartition]
  rw [alookup_aupdate_self]

end HsvEnergy

namespace HsvEnergy

/-- C3: For every store state and batch of points, appending the batch twice
yields the same cache state — and hence the same `read()` result — as
appending it once: identity-based dedup drops every record of the repeated
batch (records beyond the retention cutoff are re-added and immediately
evicted again), and the `_last_fetch` update is idempotent. -/
theorem append_idempotent
    (st : CacheState) (data : List RawPoint)
    (meter sln acct ut uom tf dty : String) (nowMs : Int)
    (st₁ : CacheState) (n : Nat)
    (h : save_usage_data st data meter sln acct ut uom tf dty nowMs =
      some (st₁, n)) :
    ∃ m, save_usage_data st₁ data meter sln acct ut uom tf dty nowMs =
      some (st₁, m) := by
  cases hne : data.isEmpty with
  | true =>
    have hdata : data = [] := List.isEmpty_iff.mp hne
    subst hdata
    rw [save_usage_data_nil] at h
    have h' := Option.some.inj h
    have hst : st = st₁ := congrArg Prod.fst h'
    subst hst
    exact ⟨0, save_usage_data_nil ..⟩
  | false =>
    cases hmap : data.mapM (toRecord meter sln acct ut uom tf dty) with
    | none =>
      rw [save_usage_data_none st meter sln acct ut uom tf dty nowMs hne hmap]
        at h
      exact absurd h (by simp)
    | some records =>
      rw [save_usage_data_eq st meter sln acct ut uom tf dty nowMs hne hmap]
        at h
      have h' := Option.some.inj h
      have hst : st₁ =
          { data := setPartition (ensureStructure st.data ut dty meter) ut dty
              meter
              (mergePartition
                (getPartition (ensureStructure st.data ut dty meter) ut dty
                  meter)
                records nowMs).1
            lastFetch := aupdate st.lastFetch (ut ++ "_" ++ dty) nowMs } :=
        (congrArg Prod.fst h').symm
      have f1 := alookup_setPartition_self (ensureStructure st.data ut dty meter)
        ut dty meter
        (mergePartition
          (getPartition (ensureStructure st.data ut dty meter) ut dty meter)
          records nowMs).1
      have f2 := alookup_aupdate_self
        ((alookup (ensureStructure st.data ut dty meter) ut).getD []) dty
        (aupdate
          ((alookup ((alookup (ensureStructure st.data ut dty meter) ut).getD [])
            dty).getD [])
          meter
          (mergePartition
            (getPartition (ensureStructure st.data ut dty meter) ut dty meter)
            records nowMs).1)
      have f3 := alookup_aupdate_self
        ((alookup ((alookup (ensureStructure st.data ut dty meter) ut).getD [])
          dty).getD [])
        meter
        (mergePartition
          (getPartition (ensureStructure st.data ut dty meter) ut dty meter)
          records nowMs).1
      rw [save_usage_data_eq st₁ meter sln acct ut uom tf dty nowMs hne hmap]
      refine ⟨(mergePartition
        (getPartition (ensureStructure st₁.data ut dty meter) ut dty meter)
        records nowMs).2, ?_⟩
      have hens : ensureStructure st₁.data ut dty meter = st₁.data := by
        rw [hst]
        exact ensureStructure_of_present f1 f2 (by rw [f3]; rfl)
      have hget : getPartition st₁.data ut dty meter =
          (mergePartition
            (getPartition (ensureStructure st.data ut dty meter) ut dty meter)
            records nowMs).1 := by
        rw [hst]
        exact getPartition_setPartition_self ..
      have hidem : (mergePartition (getPartition st₁.data ut dty meter)
          records nowMs).1 = getPartition st₁.data ut dty meter := by
        rw [hget]
        exact mergePartition_idem ..
      have hset : setPartition st₁.data ut dty meter
          (getPartition st₁.data ut dty meter) = st₁.data := by
        rw [hst]
        rw [getPartition_setPartition_self]
        exact setPartition_eq_self f1 f2 f3
      have hlf : aupdate st₁.lastFetch (ut ++ "_" ++ dty) nowMs =
          st₁.lastFetch := by
        rw [hst]
        exact aupdate_aupdate_self ..
      rw [hens, hidem, hset, hlf]

end HsvEnergy

namespace HsvEnergy

/-- Witness for C3 at a concrete input: one point, re-appended. -/
theorem append_idempotent_witness :
    (save_usage_data CacheState.empty [⟨some 1700000000000, some 1⟩]
        "M1" "SL" "AC" "ELECTRIC" "KWH" "HOURLY" "USAGE" 1700000000000 =
      some (c1State', 1)) ∧
    ∃ m, save_usage_data c1State' [⟨some 1700000000000, some 1⟩]
        "M1" "SL" "AC" "ELECTRIC" "KWH" "HOURLY" "USAGE" 1700000000000 =
      some (c1State', m) :=
  ⟨by decide,
   append_idempotent CacheState.empty [⟨some 1700000000000, some 1⟩]
     "M1" "SL" "AC" "ELECTRIC" "KWH" "HOURLY" "USAGE" 1700000000000
     c1State' 1 (by decide)⟩

end HsvEnergy

namespace HsvEnergy

/-- When every batch record's timestamp is already present, nothing new is
merged: the partition is merely re-sorted and evicted, and the count is 0. -/
theorem mergePartition_all_dup {E R : List Record} (now : Int)
    (h : ∀ r ∈ R, r.timestamp_ms ∈ E.map Record.timestamp_ms) :
    mergePartition E R now =
      ((List.insertionSort tsLe E).filter
        (fun r => now - 604800000 ≤ r.timestamp_ms), 0) := by
  simp only [mergePartition]
  have hnil : List.filter
      (fun r => decide (r.timestamp_ms ∉ List.map (fun x => x.timestamp_ms) E))
      R = [] := by
    rw [List.filter_eq_nil_iff]
    intro r hr
    simpa using h r hr
  rw [hnil]
  simp

/-- C1 counterexample: store a point with value `1.0`, re-append the same
identity with value `1.5`; `read` and `hourlySeries` still show `1.0` — the
incoming value is dropped, not overwritten. -/
theorem append_does_not_overwrite_cex :
    ((save_usage_data CacheState.empty [⟨some 1700000000000, some 1⟩]
        "M1" "SL" "AC" "ELECTRIC" "KWH" "HOURLY" "USAGE" 1700000000000).bind
      (fun s => save_usage_data s.1 [⟨some 1700000000000, some (3 / 2)⟩]
        "M1" "SL" "AC" "ELECTRIC" "KWH" "HOURLY" "USAGE" 1700000000000)).map
      (fun s =>
        ((read_usage_data s.1 (some "ELECTRIC") (some "USAGE") none none
            none).map Record.usage_value,
         (get_hourly_data_for_statistics s.1 "ELECTRIC" "USAGE").map
           Prod.snd)) =
      some ([1], [1]) ∧ (1 : Rat) ≠ 3 / 2 := by
  constructor
  · decide
  · norm_num

/-- C1 amended: when an incoming point's identity `timestamp_ms` already
exists in the partition, `save_usage_data` drops the incoming point entirely
(first write wins): the partition is only re-sorted and retention-evicted —
the stored value is NOT overwritten — and the point is not counted. -/
theorem append_duplicate_identity_keeps_old_value
    (st : CacheState) (meter sln acct ut uom tf dty : String) (nowMs ts : Int)
    (v : Rat) (st' : CacheState) (n : Nat)
    (hts : ts ∈ (getPartition st.data ut dty meter).map Record.timestamp_ms)
    (hsave : save_usage_data st [⟨some ts, some v⟩] meter sln acct ut uom tf
      dty nowMs = some (st', n)) :
    getPartition st'.data ut dty meter =
      (List.insertionSort tsLe (getPartition st.data ut dty meter)).filter
        (fun r => nowMs - 604800000 ≤ r.timestamp_ms) ∧
    n = 0 := by
  obtain ⟨r0, hr0, hr0ts⟩ :
      ∃ r0, toRecord meter sln acct ut uom tf dty ⟨some ts, some v⟩ =
        some r0 ∧ r0.timestamp_ms = ts :=
    ⟨_, rfl, rfl⟩
  have hmap : ([⟨some ts, some v⟩] : List RawPoint).mapM
      (toRecord meter sln acct ut uom tf dty) = some [r0] := by
    rw [List.mapM_cons, hr0]
    rfl
  rw [save_usage_data_eq st meter sln acct ut uom tf dty nowMs
    (by rfl) hmap] at hsave
  have hdup : ∀ r ∈ [r0], r.timestamp_ms ∈
      (getPartition (ensureStructure st.data ut dty meter) ut dty
        meter).map Record.timestamp_ms := by
    intro r hr
    rw [List.mem_singleton] at hr
    subst hr
    rw [hr0ts, getPartition_ensureStructure]
    exact hts
  rw [mergePartition_all_dup nowMs hdup] at hsave
  have h' := Option.some.inj hsave
  have hst' : st' =
      { data := setPartition (ensureStructure st.data ut dty meter) ut dty
          meter
          ((List.insertionSort tsLe
            (getPartition (ensureStructure st.data ut dty meter) ut dty
              meter)).filter
            (fun r => nowMs - 604800000 ≤ r.timestamp_ms))
        lastFetch := aupdate st.lastFetch (ut ++ "_" ++ dty) nowMs } :=
    (congrArg Prod.fst h').symm
  have hn : n = 0 := (congrArg Prod.snd h').symm
  refine ⟨?_, hn⟩
  rw [hst']
  rw [getPartition_setPartition_self, getPartition_ensureStructure]

/-- Witness for the amended C1 at a concrete input. -/
theorem append_duplicate_identity_keeps_old_value_witness :
    (1700000000000 ∈
      (getPartition c1State.data "ELECTRIC" "USAGE" "M1").map
        Record.timestamp_ms) ∧
    (save_usage_data c1State [⟨some 1700000000000, some (3 / 2)⟩]
      "M1" "SL" "AC" "ELECTRIC" "KWH" "HOURLY" "USAGE" 1700000000000 =
      some (c1State', 0)) ∧
    (getPartition c1State'.data "ELECTRIC" "USAGE" "M1" =
      (List.insertionSort tsLe
        (getPartition c1State.data "ELECTRIC" "USAGE" "M1")).filter
        (fun r => 1700000000000 - 604800000 ≤ r.timestamp_ms) ∧
      0 = 0) :=
  ⟨by decide, by decide,
   append_duplicate_identity_keeps_old_value c1State "M1" "SL" "AC" "ELECTRIC"
     "KWH" "HOURLY" "USAGE" 1700000000000 1700000000000 (3 / 2) c1State' 0
     (by decide) (by decide)⟩

end HsvEnergy

namespace HsvEnergy

/-- C4: after every non-empty append, no reading older than
`now − 7 days` (in `timestamp_ms`) remains in the mutated partition. -/
theorem append_evicts_old_readings
    (st : CacheState) (data : List RawPoint)
    (meter sln acct ut uom tf dty : String) (nowMs : Int)
    (st' : CacheState) (n : Nat)
    (hne : data ≠ [])
    (hsave : save_usage_data st data meter sln acct ut uom tf dty nowMs =
      some (st', n)) :
    ∀ r ∈ getPartition st'.data ut dty meter,
      nowMs - 604800000 ≤ r.timestamp_ms := by
  have hne' : data.isEmpty = false := by
    cases data with
    | nil => exact absurd rfl hne
    | cons a t => rfl
  cases hmap : data.mapM (toRecord meter sln acct ut uom tf dty) with
  | none =>
    rw [save_usage_data_none st meter sln acct ut uom tf dty nowMs hne' hmap]
      at hsave
    exact absurd hsave (by simp)
  | some records =>
    rw [save_usage_data_eq st meter sln acct ut uom tf dty nowMs hne' hmap]
      at hsave
    have hst' : st' =
        { data := setPartition (ensureStructure st.data ut dty meter) ut dty
            meter
            (mergePartition
              (getPartition (ensureStructure st.data ut dty meter) ut dty
                meter)
              records nowMs).1
          lastFetch := aupdate st.lastFetch (ut ++ "_" ++ dty) nowMs } :=
      (congrArg Prod.fst (Option.some.inj hsave)).symm
    rw [hst']
    rw [getPartition_setPartition_self]
    exact mergePartition_fst_cutoff _ _ _

/-- Witness for C4: a point 10 days old and a point at `now`; the surviving
partition holds only the recent one, and `read` returns exactly it. -/
theorem append_evicts_old_readings_witness :
    (([⟨some 1699136000000, some 5⟩, ⟨some 1700000000000, some 7⟩] :
        List RawPoint) ≠ []) ∧
    (save_usage_data CacheState.empty
      [⟨some 1699136000000, some 5⟩, ⟨some 1700000000000, some 7⟩]
      "M1" "SL" "AC" "ELECTRIC" "KWH" "HOURLY" "USAGE" 1700000000000 =
      some (c4State', 2)) ∧
    (read_usage_data c4State' (some "ELECTRIC") (some "USAGE") none none none =
      [c4Record]) ∧
    (∀ r ∈ getPartition c4State'.data "ELECTRIC" "USAGE" "M1",
      1700000000000 - 604800000 ≤ r.timestamp_ms) :=
  ⟨by decide, by decide, by decide,
   append_evicts_old_readings CacheState.empty
     [⟨some 1699136000000, some 5⟩, ⟨some 1700000000000, some 7⟩]
     "M1" "SL" "AC" "ELECTRIC" "KWH" "HOURLY" "USAGE" 1700000000000
     c4State' 2 (by decide) (by decide)⟩

end HsvEnergy


namespace HsvEnergy

/-- A successful `mapM` produces as many outputs as inputs. -/
theorem mapM_some_length {α β : Type} (f : α → Option β) :
    ∀ {l : List α} {l' : List β}, l.mapM f = some l' → l'.length = l.length
  | [], l', h => by
    simp only [List.mapM_nil, Option.pure_def, Option.some.injEq] at h
    subst h
    rfl
  | a :: t, l', h => by
    rw [List.mapM_cons] at h
    cases hf : f a with
    | none => rw [hf] at h; simp at h
    | some b =>
      rw [hf] at h
      cases hm : t.mapM f with
      | none => rw [hm] at h; simp at h
      | some bs =>
        rw [hm] at h
        simp at h
        subst h
        simp [mapM_some_length f hm]

/-- Under a successful conversion, the produced records carry exactly the
batch's `'x'` timestamps, in order. -/
theorem mapM_toRecord_timestamps
    {meter sln acct ut uom tf dty : String} :
    ∀ {data : List RawPoint} {records : List Record},
      data.mapM (toRecord meter sln acct ut uom tf dty) = some records →
      records.map (fun r => r.timestamp_ms) = data.filterMap RawPoint.x
  | [], records, h => by
    simp only [List.mapM_nil, Option.pure_def, Option.some.injEq] at h
    subst h
    rfl
  | p :: t, records, h => by
    rw [List.mapM_cons] at h
    cases hf : toRecord meter sln acct ut uom tf dty p with
    | none => rw [hf] at h; simp at h
    | some r =>
      rw [hf] at h
      cases hm : t.mapM (toRecord meter sln acct ut uom tf dty) with
      | none => rw [hm] at h; simp at h
      | some rs =>
        rw [hm] at h
        simp at h
        subst h
        cases hx : p.x with
        | none =>
          rw [toRecord] at hf
          rw [hx] at hf
          simp at hf
        | some ts0 =>
          cases hy : p.y with
          | none =>
            rw [toRecord] at hf
            rw [hx, hy] at hf
            simp at hf
          | some v0 =>
            have hts : (toRecord meter sln acct ut uom tf dty p).map
                (fun r => r.timestamp_ms) = some ts0 := by
              simp [toRecord, hx, hy]
            rw [hf] at hts
            simp at hts
            simp only [List.map_cons, List.filterMap_cons, hx, hts]
            exact congrArg (ts0 :: ·) (mapM_toRecord_timestamps hm)

end HsvEnergy

namespace HsvEnergy

/-- C5 counterexample: the durable backend's `save_usage_data` returns the
total batch size even when the only point's identity
`(timestamp_ms, meter, utility, kind)` is already stored — zero genuinely
new identities, yet it returns `1`, not `0`. -/
theorem append_return_count_cex :
    (EnergyDeltaStorage.save_usage_data (some [c5Row])
      [⟨some 1700000000000, some 2⟩] "M1" "SL" "AC" "ELECTRIC" "KWH" "HOURLY"
      "USAGE" 0).map Prod.snd = some 1 ∧
    c5Row.timestamp_ms = 1700000000000 ∧ c5Row.meter_number = "M1" ∧
    c5Row.utility_type = "ELECTRIC" ∧ c5Row.data_type = "USAGE" ∧
    (1 : Nat) ≠ 0 := by
  decide

/-- C5 amended: the in-memory cache's `save_usage_data` returns the number of
batch points whose `timestamp_ms` is not already present in the partition
(equal to the count of genuinely new identities whenever the batch's
timestamps are distinct), while the durable backend variant returns the
total number of points in the batch whether previously present or not — the
two variants do not expose the same counting contract. -/
theorem append_return_counts :
    (∀ (st : CacheState) (data : List RawPoint)
        (meter sln acct ut uom tf dty : String) (nowMs : Int)
        (st' : CacheState) (n : Nat),
      save_usage_data st data meter sln acct ut uom tf dty nowMs =
        some (st', n) →
      n = ((data.filterMap RawPoint.x).filter
        (fun ts => ts ∉ (getPartition st.data ut dty meter).map
          (fun r => r.timestamp_ms))).length) ∧
    (∀ (table : Option (List DRow)) (data : List RawPoint)
        (meter sln acct ut uom tf dty : String) (nowMs : Int)
        (table' : Option (List DRow)) (n : Nat),
      EnergyDeltaStorage.save_usage_data table data meter sln acct ut uom tf
        dty nowMs = some (table', n) →
      n = data.length) := by
  constructor
  · intro st data meter sln acct ut uom tf dty nowMs st' n hsave
    cases hne : data.isEmpty with
    | true =>
      have hdata : data = [] := List.isEmpty_iff.mp hne
      subst hdata
      rw [save_usage_data_nil] at hsave
      have hn : (0 : Nat) = n :=
        congrArg Prod.snd (Option.some.inj hsave)
      simp [← hn]
    | false =>
      cases hmap : data.mapM (toRecord meter sln acct ut uom tf dty) with
      | none =>
        rw [save_usage_data_none st meter sln acct ut uom tf dty nowMs hne
          hmap] at hsave
        exact absurd hsave (by simp)
      | some records =>
        rw [save_usage_data_eq st meter sln acct ut uom tf dty nowMs hne
          hmap] at hsave
        have hn : n = (mergePartition
            (getPartition (ensureStructure st.data ut dty meter) ut dty meter)
            records nowMs).2 :=
          (congrArg Prod.snd (Option.some.inj hsave)).symm
        rw [hn]
        show (records.filter _).length = _
        rw [← mapM_toRecord_timestamps hmap, getPartition_ensureStructure]
        rw [List.filter_map, List.length_map]
        rfl
  · intro table data meter sln acct ut uom tf dty nowMs table' n hsave
    cases hne : data.isEmpty with
    | true =>
      have hdata : data = [] := List.isEmpty_iff.mp hne
      subst hdata
      simp only [EnergyDeltaStorage.save_usage_data, List.isEmpty_nil,
        if_true, Option.some.injEq] at hsave
      have hn : (0 : Nat) = n := congrArg Prod.snd hsave
      simp [← hn]
    | false =>
      cases hmap : data.mapM (toDRow meter sln acct ut uom tf dty nowMs) with
      | none =>
        simp only [EnergyDeltaStorage.save_usage_data, hne,
          Bool.false_eq_true, if_false, hmap] at hsave
        exact absurd hsave (by simp)
      | some records =>
        have hlen : records.length = data.length := mapM_some_length _ hmap
        cases table with
        | some tbl =>
          simp only [EnergyDeltaStorage.save_usage_data, hne,
            Bool.false_eq_true, if_false, hmap, Option.some.injEq] at hsave
          have hn : records.length = n := congrArg Prod.snd hsave
          rw [← hn, hlen]
        | none =>
          simp only [EnergyDeltaStorage.save_usage_data, hne,
            Bool.false_eq_true, if_false, hmap, Option.some.injEq] at hsave
          have hn : records.length = n := congrArg Prod.snd hsave
          rw [← hn, hlen]

/-- Witness for the amended C5: both counting formulas at concrete inputs. -/
theorem append_return_counts_witness :
    (1 = ((([⟨some 1700000000000, some 1⟩] : List RawPoint).filterMap
        RawPoint.x).filter
        (fun ts => ts ∉ (getPartition CacheState.empty.data "ELECTRIC" "USAGE"
          "M1").map (fun r => r.timestamp_ms))).length) ∧
    (1 = ([⟨some 1700000000000, some 2⟩] : List RawPoint).length) :=
  ⟨append_return_counts.1 CacheState.empty [⟨some 1700000000000, some 1⟩]
     "M1" "SL" "AC" "ELECTRIC" "KWH" "HOURLY" "USAGE" 1700000000000
     c1State' 1 (by decide),
   append_return_counts.2 (some [c5Row]) [⟨some 1700000000000, some 2⟩]
     "M1" "SL" "AC" "ELECTRIC" "KWH" "HOURLY" "USAGE" 0
     (some [c5Row2]) 1 (by decide)⟩

end HsvEnergy

namespace HsvEnergy

/-- If any element maps to `none`, the whole `mapM` is `none`. -/
theorem mapM_eq_none {α β : Type} {f : α → Option β} :
    ∀ {l : List α} {a : α}, a ∈ l → f a = none → l.mapM f = none
  | [], a, ha, _ => by simp at ha
  | b :: t, a, ha, hfa => by
    rw [List.mapM_cons]
    rcases List.mem_cons.mp ha with rfl | hat
    · rw [hfa]
      rfl
    · cases hfb : f b with
      | none => rfl
      | some v =>
        rw [mapM_eq_none hat hfa]
        rfl

/-- C10: appending an empty points list returns 0 and leaves the entire
store state unchanged (no partition created, no last-fetch update), in both
backend variants. -/
theorem append_empty_batch_frame
    (st : CacheState) (table : Option (List DRow))
    (meter sln acct ut uom tf dty : String) (nowMs : Int) :
    save_usage_data st [] meter sln acct ut uom tf dty nowMs =
      some (st, 0) ∧
    EnergyDeltaStorage.save_usage_data table [] meter sln acct ut uom tf dty
      nowMs = some (table, 0) :=
  ⟨save_usage_data_nil st meter sln acct ut uom tf dty nowMs, rfl⟩

/-- C9 counterexample: a batch holding one well-formed point and one point
missing its value makes `save_usage_data` raise (`none`), instead of
skipping the malformed point and merging the rest. -/
theorem append_malformed_point_raises_cex :
    save_usage_data CacheState.empty
      [⟨some 1700000000000, some 1⟩, ⟨some 1700003600000, none⟩]
      "M1" "SL" "AC" "ELECTRIC" "KWH" "HOURLY" "USAGE" 1700000000000 =
      none := by
  decide

/-- C9 amended: a point missing its timestamp (`'x'`) or value (`'y'`) makes
the whole append raise `KeyError` (modelled as `none`), aborting the batch
before anything is merged — well-formed points of the batch are not saved. -/
theorem append_malformed_point_raises
    (st : CacheState) (data : List RawPoint)
    (meter sln acct ut uom tf dty : String) (nowMs : Int) (p : RawPoint)
    (hp : p ∈ data) (hbad : p.x = none ∨ p.y = none) :
    save_usage_data st data meter sln acct ut uom tf dty nowMs = none := by
  have hne : data.isEmpty = false := by
    cases data with
    | nil => simp at hp
    | cons a t => rfl
  have hrec : toRecord meter sln acct ut uom tf dty p = none := by
    rcases hbad with hx | hy
    · simp [toRecord, hx]
    · cases hx : p.x with
      | none => simp [toRecord, hx]
      | some ts0 => simp [toRecord, hx, hy]
  exact save_usage_data_none st meter sln acct ut uom tf dty nowMs hne
    (mapM_eq_none hp hrec)

/-- Witness for the amended C9 at a concrete input. -/
theorem append_malformed_point_raises_witness :
    ((⟨some 1700003600000, none⟩ : RawPoint) ∈
      ([⟨some 1700000000000, some 1⟩, ⟨some 1700003600000, none⟩] :
        List RawPoint)) ∧
    ((⟨some 1700003600000, none⟩ : RawPoint).x = none ∨
      (⟨some 1700003600000, none⟩ : RawPoint).y = none) ∧
    save_usage_data CacheState.empty
      [⟨some 1700000000000, some 1⟩, ⟨some 1700003600000, none⟩]
      "M1" "SL" "AC" "ELECTRIC" "KWH" "HOURLY" "USAGE" 1700000000000 =
      none :=
  ⟨by decide, Or.inr rfl,
   append_malformed_point_raises CacheState.empty
     [⟨some 1700000000000, some 1⟩, ⟨some 1700003600000, none⟩]
     "M1" "SL" "AC" "ELECTRIC" "KWH" "HOURLY" "USAGE" 1700000000000
     ⟨some 1700003600000, none⟩ (by decide) (Or.inr rfl)⟩

/-- C8: on an empty partition the rollup raises nothing and returns the
zero-valued result: all totals `0.0`, default unit `KWH` for `ELECTRIC` and
`CCF` otherwise, and null `last_update` / `data_lag_hours`. -/
theorem rollup_empty_partition
    (st : CacheState) (ut dty : String) (nowMs : Int)
    (h : read_usage_data st (some ut) (some dty) none none none = []) :
    get_aggregated_data st ut dty nowMs =
      { last_24h := 0, today := 0, yesterday := 0
        unit := if ut = "ELECTRIC" then "KWH" else "CCF"
        last_update := none, data_lag_hours := none } := by
  simp [get_aggregated_data, h]

/-- Witness for C8 on the empty store. -/
theorem rollup_empty_partition_witness :
    (read_usage_data CacheState.empty (some "GAS") (some "USAGE") none none
      none = []) ∧
    get_aggregated_data CacheState.empty "GAS" "USAGE" 0 =
      { last_24h := 0, today := 0, yesterday := 0
        unit := if "GAS" = "ELECTRIC" then "KWH" else "CCF"
        last_update := none, data_lag_hours := none } :=
  ⟨by decide,
   rollup_empty_partition CacheState.empty "GAS" "USAGE" 0 (by decide)⟩

/-- C2: the timestamp correction equals the spec's three-step composition —
(a) read the raw epoch milliseconds as a UTC instant giving a naive wall
clock, (b) reinterpret that wall clock in `America/Chicago` with the zone
database's default (`fold=0`) disambiguation, (c) convert to true UTC — and
it is a pure, deterministic function (equal inputs give equal outputs). -/
theorem correction_algorithm (ms : Int) :
    correctTimestamp ms = specCorrect ms ∧
    ∀ ms' : Int, ms = ms' → correctTimestamp ms = correctTimestamp ms' :=
  ⟨rfl, fun _ h => congrArg correctTimestamp h⟩

/-- Witness for C2 at a concrete raw timestamp. -/
theorem correction_algorithm_witness :
    correctTimestamp 1700000000000 = specCorrect 1700000000000 ∧
    correctTimestamp 1700000000000 = correctTimestamp 1700000000000 :=
  ⟨(correction_algorithm 1700000000000).1,
   (correction_algorithm 1700000000000).2 1700000000000 rfl⟩

end HsvEnergy

namespace HsvEnergy

/-- Reading the store is sorted by `timestamp_ms`. -/
theorem read_usage_data_sorted (st : CacheState) (ut? dty? : Option String)
    (s? e? : Option Int) (m? : Option String) :
    List.Sorted tsLe (read_usage_data st ut? dty? s? e? m?) := by
  simp only [read_usage_data]
  exact List.sorted_insertionSort tsLe _

/-- C6: on a non-empty partition, `last_24h` is the (2-decimal-rounded) sum
of exactly the readings whose corrected UTC instant is strictly after
`latest.corrected_utc − 24 h`, where `latest` is the last — and, the read
being sorted, maximum-timestamp — reading; the window is anchored to the
most recent sample, not to wall-clock now (`nowMs` does not enter it). -/
theorem rollup_last24h_anchored_to_latest
    (st : CacheState) (ut dty : String) (nowMs : Int)
    (recs : List Record)
    (hrecs : read_usage_data st (some ut) (some dty) none none none = recs)
    (hne : recs ≠ []) :
    (get_aggregated_data st ut dty nowMs).last_24h =
      roundTo 2 (((recs.filter (fun r =>
        (recs.getLast hne).datetime_utc - 86400000 < r.datetime_utc)).map
        (fun r => r.usage_value)).sum) ∧
    ∀ r ∈ recs, r.timestamp_ms ≤ (recs.getLast hne).timestamp_ms := by
  have hempty : recs.isEmpty = false := by
    cases recs with
    | nil => exact absurd rfl hne
    | cons a t => rfl
  constructor
  · simp only [get_aggregated_data, hrecs, hempty, Bool.false_eq_true,
      if_false, List.getLast?_eq_getLast recs hne]
    simp
  · intro r hr
    have hsorted : List.Sorted tsLe recs := by
      rw [← hrecs]
      exact read_usage_data_sorted ..
    exact sorted_le_getLast hsorted hne r hr

/-- Witness for C6 on a one-record partition. -/
theorem rollup_last24h_anchored_to_latest_witness :
    ((get_aggregated_data c1State "ELECTRIC" "USAGE" 1700000000000).last_24h =
      roundTo 2 ((([c1Record].filter (fun r =>
        ([c1Record].getLast (by decide)).datetime_utc - 86400000 <
          r.datetime_utc)).map (fun r => r.usage_value)).sum)) ∧
    ∀ r ∈ [c1Record], r.timestamp_ms ≤
      ([c1Record].getLast (by decide)).timestamp_ms :=
  rollup_last24h_anchored_to_latest c1State "ELECTRIC" "USAGE" 1700000000000
    [c1Record] (by decide) (by decide)

end HsvEnergy

namespace HsvEnergy

theorem hlookup_bumpHour (acc : List (Int × Rat)) (h h' : Int) (v : Rat) :
    hlookup (bumpHour acc h v) h' =
      if h = h' then some ((hlookup acc h').getD 0 + v)
      else hlookup acc h' := by
  induction acc with
  | nil =>
    by_cases hk : h = h' <;> simp [bumpHour, hlookup, hk]
  | cons kv rest ih =>
    obtain ⟨k, w⟩ := kv
    by_cases hkh : k = h
    · subst hkh
      by_cases hk' : k = h' <;> simp [bumpHour, hlookup, hk']
    · by_cases hk' : k = h'
      · subst hk'
        have hhh' : ¬ h = k := fun hh => hkh hh.symm
        simp [bumpHour, hlookup, hkh, hhh']
      · simp [bumpHour, hlookup, hkh, hk', ih]

theorem hlookup_foldl (l : List Record) :
    ∀ (acc : List (Int × Rat)) (h : Int),
      hlookup (l.foldl (fun a r =>
        bumpHour a (hourFloor r.datetime_utc) r.usage_value) acc) h =
      match hlookup acc h with
      | some w => some (w + hourSum h l)
      | none =>
        if l.any (fun r => hourFloor r.datetime_utc = h)
        then some (hourSum h l) else none := by
  induction l with
  | nil =>
    intro acc h
    cases hacc : hlookup acc h <;> simp [hourSum, hacc]
  | cons r t ih =>
    intro acc h
    simp only [List.foldl_cons]
    rw [ih]
    rw [hlookup_bumpHour]
    by_cases heq : hourFloor r.datetime_utc = h
    · rw [if_pos heq]
      have hsum : hourSum h (r :: t) = r.usage_value + hourSum h t := by
        simp [hourSum, List.filter_cons, heq]
      cases hacc : hlookup acc h with
      | some w => simp [hsum, add_assoc]
      | none => simp [hsum, List.any_cons, heq, zero_add]
    · rw [if_neg heq]
      have hsum : hourSum h (r :: t) = hourSum h t := by
        simp [hourSum, List.filter_cons, heq]
      cases hacc : hlookup acc h with
      | some w => simp [hsum]
      | none => simp [hsum, List.any_cons, heq]

theorem hlookup_eq_none_iff (acc : List (Int × Rat)) (h : Int) :
    hlookup acc h = none ↔ h ∉ acc.map Prod.fst := by
  induction acc with
  | nil => simp [hlookup]
  | cons kv rest ih =>
    obtain ⟨k, w⟩ := kv
    by_cases hk : k = h
    · subst hk
      simp [hlookup]
    · have hk' : ¬ h = k := fun hh => hk hh.symm
      simp [hlookup, hk, hk', ih]

theorem bumpHour_keys (acc : List (Int × Rat)) (h : Int) (v : Rat) :
    (bumpHour acc h v).map Prod.fst =
      if h ∈ acc.map Prod.fst then acc.map Prod.fst
      else acc.map Prod.fst ++ [h] := by
  induction acc with
  | nil => simp [bumpHour]
  | cons kv rest ih =>
    obtain ⟨k, w⟩ := kv
    by_cases hk : k = h
    · subst hk
      simp [bumpHour]
    · have hk' : ¬ h = k := fun hh => hk hh.symm
      simp only [bumpHour, if_neg hk, List.map_cons, ih]
      by_cases hmem : h ∈ rest.map Prod.fst <;> simp [hmem, hk']

theorem nodup_keys_bumpHour {acc : List (Int × Rat)} (h : Int) (v : Rat)
    (hnd : (acc.map Prod.fst).Nodup) :
    ((bumpHour acc h v).map Prod.fst).Nodup := by
  rw [bumpHour_keys]
  by_cases hmem : h ∈ acc.map Prod.fst
  · simpa [hmem] using hnd
  · simp only [hmem, if_false]
    simp [List.nodup_append, hnd, hmem]

theorem nodup_keys_foldl (l : List Record) :
    ∀ acc : List (Int × Rat), (acc.map Prod.fst).Nodup →
      ((l.foldl (fun a r =>
        bumpHour a (hourFloor r.datetime_utc) r.usage_value) acc).map
        Prod.fst).Nodup := by
  induction l with
  | nil => intro acc hnd; simpa using hnd
  | cons r t ih =>
    intro acc hnd
    simp only [List.foldl_cons]
    exact ih _ (nodup_keys_bumpHour _ _ hnd)

theorem mem_iff_hlookup {acc : List (Int × Rat)}
    (hnd : (acc.map Prod.fst).Nodup) (h : Int) (v : Rat) :
    (h, v) ∈ acc ↔ hlookup acc h = some v := by
  induction acc with
  | nil => simp [hlookup]
  | cons kv rest ih =>
    obtain ⟨k, w⟩ := kv
    simp only [List.map_cons, List.nodup_cons] at hnd
    by_cases hk : k = h
    · subst hk
      have hnotmem : (k, v) ∉ rest := fun hmem =>
        hnd.1 (List.mem_map.mpr ⟨(k, v), hmem, rfl⟩)
      simp [hlookup, hnotmem, eq_comm]
    · have : ¬ (h, v) = (k, w) := fun hh => hk (congrArg Prod.fst hh).symm
      simp [hlookup, hk, this, ih hnd.2]

end HsvEnergy

namespace HsvEnergy

/-- C7: `hourlySeries` groups the partition's readings by their corrected
UTC instant floored to the hour, sums `value` per group, and returns the
groups strictly ascending by `hour_start`: a pair `(h, v)` occurs in the
output iff some reading falls in hour `h` and `v` is the sum of the values
of exactly the readings in hour `h`; an empty partition yields an empty
sequence. -/
theorem hourly_series_correct (st : CacheState) (ut dty : String) :
    List.Pairwise (fun a b => a.1 < b.1)
      (get_hourly_data_for_statistics st ut dty) ∧
    (∀ (h : Int) (v : Rat),
      (h, v) ∈ get_hourly_data_for_statistics st ut dty ↔
        ((∃ r ∈ read_usage_data st (some ut) (some dty) none none none,
            hourFloor r.datetime_utc = h) ∧
          v = hourSum h
            (read_usage_data st (some ut) (some dty) none none none))) ∧
    (read_usage_data st (some ut) (some dty) none none none = [] →
      get_hourly_data_for_statistics st ut dty = []) := by
  by_cases hrecs :
      (read_usage_data st (some ut) (some dty) none none none).isEmpty
  · have hread : read_usage_data st (some ut) (some dty) none none none =
        [] := List.isEmpty_iff.mp hrecs
    have hnil : get_hourly_data_for_statistics st ut dty = [] := by
      simp [get_hourly_data_for_statistics, hrecs]
    refine ⟨by simp [hnil], ?_, fun _ => hnil⟩
    intro h v
    simp [hnil, hread]
  · have hempty : (read_usage_data st (some ut) (some dty) none none
        none).isEmpty = false := by
      cases hh : (read_usage_data st (some ut) (some dty) none none
          none).isEmpty
      · rfl
      · exact absurd hh hrecs
    have hform : get_hourly_data_for_statistics st ut dty =
        List.insertionSort hourLe
          ((read_usage_data st (some ut) (some dty) none none none).foldl
            (fun acc r =>
              bumpHour acc (hourFloor r.datetime_utc) r.usage_value) []) := by
      simp [get_hourly_data_for_statistics, hempty]
    have hndgroups :
        (((read_usage_data st (some ut) (some dty) none none none).foldl
          (fun acc r =>
            bumpHour acc (hourFloor r.datetime_utc) r.usage_value) []).map
          Prod.fst).Nodup :=
      nodup_keys_foldl _ [] (by simp)
    have hperm := List.perm_insertionSort hourLe
      ((read_usage_data st (some ut) (some dty) none none none).foldl
        (fun acc r =>
          bumpHour acc (hourFloor r.datetime_utc) r.usage_value) [])
    have hndsorted :
        ((List.insertionSort hourLe
          ((read_usage_data st (some ut) (some dty) none none none).foldl
            (fun acc r =>
              bumpHour acc (hourFloor r.datetime_utc) r.usage_value) [])).map
          Prod.fst).Nodup :=
      ((hperm.map Prod.fst).nodup_iff).mpr hndgroups
    refine ⟨?_, ?_, ?_⟩
    · rw [hform]
      exact (List.sorted_insertionSort hourLe _).imp₂
        (fun a b hle hne => lt_of_le_of_ne hle hne)
        (List.pairwise_map.mp hndsorted)
    · intro h v
      rw [hform, hperm.mem_iff, mem_iff_hlookup hndgroups,
        hlookup_foldl _ [] h]
      simp only [hlookup]
      cases hany : (read_usage_data st (some ut) (some dty) none none
          none).any (fun r => hourFloor r.datetime_utc = h) with
      | true =>
        simp only [hany, if_true]
        rw [List.any_eq_true] at hany
        constructor
        · intro hv
          refine ⟨?_, (Option.some.inj hv).symm⟩
          obtain ⟨r, hr, hfr⟩ := hany
          exact ⟨r, hr, by simpa using hfr⟩
        · intro ⟨_, hv⟩
          rw [hv]
      | false =>
        simp only [hany, Bool.false_eq_true, if_false]
        constructor
        · intro hv
          exact absurd hv (by simp)
        · intro ⟨⟨r, hr, hfr⟩, _⟩
          have htrue : ((read_usage_data st (some ut) (some dty) none none
              none).any fun r => decide (hourFloor r.datetime_utc = h)) =
              true :=
            List.any_eq_true.mpr ⟨r, hr, by simpa using hfr⟩
          rw [hany] at htrue
          exact absurd htrue (by simp)
    · intro hread
      rw [hread] at hempty
      simp at hempty

end HsvEnergy

namespace HsvEnergy

/-- Witness for C7 on a concrete one-record partition. -/
theorem hourly_series_correct_witness :
    List.Pairwise (fun a b => a.1 < b.1)
      (get_hourly_data_for_statistics c1State "ELECTRIC" "USAGE") ∧
    (∀ (h : Int) (v : Rat),
      (h, v) ∈ get_hourly_data_for_statistics c1State "ELECTRIC" "USAGE" ↔
        ((∃ r ∈ read_usage_data c1State (some "ELECTRIC") (some "USAGE") none
            none none, hourFloor r.datetime_utc = h) ∧
          v = hourSum h
            (read_usage_data c1State (some "ELECTRIC") (some "USAGE") none
              none none))) :=
  ⟨(hourly_series_correct c1State "ELECTRIC" "USAGE").1,
   (hourly_series_correct c1State "ELECTRIC" "USAGE").2.1⟩

end HsvEnergy
